import Mathlib

/-!
Verification of the instruction-table expander of
`turing-complete-game-asm-generator` (`src/index.ts`).

The program is a single pipeline over a literal instruction table:
parse the fixed-width rows, filter away rows whose mnemonic already
carries an immediate-mode suffix, lowercase the mnemonics of
non-wildcard rows, expand each base row into immediate-mode variants,
and serialize the result both as rule rows and as assembly lines.

JavaScript strings are modelled as Lean `String`s; the index-based
JavaScript operations (`slice`, `split`, `trim`, ...) are modelled on
the underlying character list, which coincides with JavaScript's
code-unit indexing on the ASCII data this program handles.  JavaScript
numbers produced by `parseInt` are modelled as `Option Nat`
(`none` = `NaN`), and the one `throw` site is modelled with `Except`.
-/

set_option maxRecDepth 100000
set_option maxHeartbeats 4000000

/-- JS `s.slice(a, b)` for `0 ≤ a ≤ b`: the characters of `s` from
index `a` (inclusive) to `b` (exclusive), clipped to the length. -/
def jsSlice (s : String) (a b : Nat) : String :=
  (((s.toList).drop a).take (b - a)).asString

/-- JS `s.slice(a)` for `0 ≤ a`: the characters of `s` from index `a` on. -/
def jsSliceFrom (s : String) (a : Nat) : String :=
  ((s.toList).drop a).asString

/-- JS `s.trim()`: strip whitespace from both ends. -/
def jsTrim (s : String) : String :=
  (((s.toList.dropWhile Char.isWhitespace).reverse.dropWhile
      Char.isWhitespace).reverse).asString

/-- JS `s.includes(c)` for a single-character needle `c`. -/
def jsIncludes (s : String) (c : Char) : Bool :=
  s.toList.contains c

/-- JS `s.toLowerCase()` (ASCII data only, as in the embedded table). -/
def jsToLowerCase (s : String) : String :=
  (s.toList.map Char.toLower).asString

/-- JS `s.split("\n")` on the character list: cut at every newline,
keeping empty segments (so `"a\nb\n"` yields `["a", "b", ""]`). -/
def splitLines : List Char → List (List Char)
  | [] => [[]]
  | c :: rest =>
    match splitLines rest with
    | [] => [[c]]
    | h :: t => if c == '\n' then [] :: h :: t else (c :: h) :: t

/-- JS `input.split("\n")` as a list of strings. -/
def jsSplitNewline (s : String) : List String :=
  (splitLines s.toList).map List.asString

/-- JS `parseInt(s, 10)`: parse the maximal leading run of decimal
digits; `NaN` (here `none`) when there is none.  (The sign and
leading-whitespace cases of `parseInt` never arise in this program:
it is only applied to slices of trimmed table rows.) -/
def jsParseIntDec (s : String) : Option Nat :=
  let ds := s.toList.takeWhile Char.isDigit
  if ds.isEmpty then none
  else some (ds.foldl (fun a c => 10 * a + (c.toNat - '0'.toNat)) 0)

/-- The base-2 value of a list of `'0'`/`'1'` characters. -/
def binaryValue (l : List Char) : Nat :=
  l.foldl (fun a c => 2 * a + (if c == '1' then 1 else 0)) 0

/-- JS `Number.parseInt(s, 2)`: parse the maximal leading run of
binary digits; `NaN` (here `none`) when there is none. -/
def jsParseIntBase2 (s : String) : Option Nat :=
  let ds := s.toList.takeWhile (fun c => c == '0' || c == '1')
  if ds.isEmpty then none
  else some (binaryValue ds)

/-- JS number-to-string coercion for a `parseInt` result:
a decimal numeral, or `"NaN"`. -/
def renderJSNumber : Option Nat → String
  | some n => toString n
  | none => "NaN"

/-- Does `hay` start with `needle`? (JS-style structural check.) -/
def listStartsWith : List Char → List Char → Bool
  | _, [] => true
  | [], _ :: _ => false
  | a :: as, b :: bs => a == b && listStartsWith as bs

/-- Does `hay` contain `needle` as a contiguous substring? -/
def listContainsSub (hay needle : List Char) : Bool :=
  match hay with
  | [] => needle.isEmpty
  | c :: t => listStartsWith (c :: t) needle || listContainsSub t needle

/-- Does `l` end with `suffix`? -/
def listEndsWith (l suffix : List Char) : Bool :=
  listStartsWith l.reverse suffix.reverse

/-- JS `RegExp` test `/i(12|1|2)$/.test(name)`: does the mnemonic end
in one of the immediate-mode tags `"i12"`, `"i1"`, `"i2"`? -/
def isGeneratedImmediateName (name : String) : Bool :=
  listEndsWith name.toList "i12".toList ||
    listEndsWith name.toList "i1".toList ||
    listEndsWith name.toList "i2".toList

/-- `interface Instruction` of `src/index.ts`.  The two indices are JS
numbers obtained from `parseInt` (`none` = `NaN`). -/
structure Instruction where
  opcodeBits : String
  nameStartIndex : Option Nat
  nameEndIndex : Option Nat
  name : String
deriving DecidableEq, Repr

/-- The `ImmediateMode` enumeration.  In TypeScript a mode *is* its
tag string (`"i1"`, `"i2"`, `"i12"`); here the tag is `ImmediateMode.tag`. -/
inductive ImmediateMode where
  | ARG1_IMMEDIATE
  | ARG2_IMMEDIATE
  | BOTH_ARGS_IMMEDIATE
deriving DecidableEq, Repr

/-- The tag string of a mode (the TypeScript enum value itself). -/
def ImmediateMode.tag : ImmediateMode → String
  | .ARG1_IMMEDIATE => "i1"
  | .ARG2_IMMEDIATE => "i2"
  | .BOTH_ARGS_IMMEDIATE => "i12"

/-- `const modes: ImmediateMode[]`. -/
def modes : List ImmediateMode :=
  [ImmediateMode.ARG1_IMMEDIATE, ImmediateMode.ARG2_IMMEDIATE,
   ImmediateMode.BOTH_ARGS_IMMEDIATE]

/-- `const modeToBits`: the two replacement characters for bits 0–1. -/
def modeToBits : ImmediateMode → Char × Char
  | .ARG1_IMMEDIATE => ('1', '0')
  | .ARG2_IMMEDIATE => ('0', '1')
  | .BOTH_ARGS_IMMEDIATE => ('1', '1')

/-- `immediateModeClone`: copy the record, overwrite characters 0 and 1
of `opcodeBits` with the mode's bit pattern, append the mode tag to the
name. -/
def immediateModeClone (i : Instruction) (mode : ImmediateMode) :
    Instruction :=
  let bits := i.opcodeBits.toList
  let m := modeToBits mode
  { i with
    opcodeBits := ((bits.set 0 m.1).set 1 m.2).asString
    name := i.name ++ mode.tag }

/-- `deserializeInstructionFromRules`: fixed-width parse of one row. -/
def deserializeInstructionFromRules (line : String) : Instruction :=
  { opcodeBits := jsSlice line 0 8
    nameStartIndex := jsParseIntDec (jsSlice line 8 9)
    nameEndIndex := jsParseIntDec (jsSlice line 9 10)
    name := jsSliceFrom line 10 }

/-- `serializeInstructionToRules`: `[opcodeBits, start, end, name].join("")`. -/
def serializeInstructionToRules (i : Instruction) : String :=
  i.opcodeBits ++ renderJSNumber i.nameStartIndex ++
    renderJSNumber i.nameEndIndex ++ i.name

/-- `serializeInstructionToAsm`: throws on a wildcard opcode, otherwise
emits `"<name> <decimal value of bits in base 2>"`. -/
def serializeInstructionToAsm (i : Instruction) : Except String String :=
  if jsIncludes i.opcodeBits '2' then
    Except.error ("cannot turn opcode with wildcard to asm: " ++ i.opcodeBits)
  else
    Except.ok (i.name ++ " " ++ renderJSNumber (jsParseIntBase2 i.opcodeBits))

/-- `readFileInstructions`: split on newlines, trim, drop blank lines,
parse each row, and reverse the order. -/
def readFileInstructions (input : String) : List Instruction :=
  ((((jsSplitNewline input).map jsTrim).filter
      (fun l => !l.isEmpty)).map deserializeInstructionFromRules).reverse

/-- `stringifyFileInstructionsForFile`: one rule row per record,
newline separated. -/
def stringifyFileInstructionsForFile (l : List Instruction) : String :=
  String.intercalate "\n" (l.map serializeInstructionToRules)

/-- `getInstructionImmediateModes`: the per-mnemonic policy switch. -/
def getInstructionImmediateModes (i : Instruction) : List ImmediateMode :=
  match i.name with
  | "read" | "pop" => []
  | "not" | "write" | "push" => [ImmediateMode.ARG1_IMMEDIATE]
  | _ => modes

/-- `addImmediateModeClones`: wildcard rows pass through alone; other
rows are followed by their immediate-mode clones. -/
def addImmediateModeClones (i : Instruction) : List Instruction :=
  if jsIncludes i.opcodeBits '2' then
    [i]
  else
    i :: ((getInstructionImmediateModes i).filter
        (fun a => decide (0 < a.tag.length))).map (immediateModeClone i)

/-- The lowercasing step of the pipeline: lowercase the mnemonic except
on wildcard rows. -/
def caseNormalize (i : Instruction) : Instruction :=
  { i with
    name := if jsIncludes i.opcodeBits '2' then i.name
            else jsToLowerCase i.name }

/-- The `instr` pipeline as a function of the input table text:
parse, drop rows whose mnemonic already carries an immediate-mode
suffix, case-normalize, and expand. -/
def pipelineInstr (input : String) : List Instruction :=
  (((readFileInstructions input).filter
      (fun i => !isGeneratedImmediateName i.name)).map
      caseNormalize).flatMap addImmediateModeClones

/-- The embedded literal table `instructions` (verbatim, including the
leading and trailing newline of the template literal). -/
def instructionsText : String :=
  "
2212222222COND
2122222211I_ARG2
2001222233MEM
1222222200I_ARG1
1110010137jgteqi12
1110010037jgti12
1110001137jlteqi12
1110001037jlti12
1110000137jneqi12
1110000037jeqi12
1100011157shli12
1100011057shri12
1100010157xori12
1100001157ori12
1100001057andi12
1100000157subi12
1100000057addi12
1010010137jgteqi1
1010010037jgti1
1010001137jlteqi1
1010001037jlti1
1010000137jneqi1
1010000037jeqi1
1001000147writei1
1001000047readi1
1000011157shli1
1000011057shri1
1000010157xori1
1000010057noti1
1000001157ori1
1000001057andi1
1000000157subi1
1000000057addi1
0110010137jgteqi2
0110010037jgti2
0110001137jlteqi2
0110001037jlti2
0110000137jneqi2
0110000037jeqi2
0100011157shli2
0100011057shri2
0100010157xori2
0100001157ori2
0100001057andi2
0100000157subi2
0100000057addi2
0010010137jgteq
0010010037jgt
0010001137jlteq
0010001037jlt
0010000137jneq
0010000037jeq
0001001147push
0001001047pop
0001000147write
0001000047read
0000011157shl
0000011057shr
0000010157xor
0000010057not
0000001157or
0000001057and
0000000157sub
0000000057add
"

/-- `const instr`: the expanded record sequence of the program. -/
def instr : List Instruction := pipelineInstr instructionsText

/-- `instructionRulesContent`: the rule-table output text. -/
def instructionRulesContent : String :=
  stringifyFileInstructionsForFile instr

/-- The assembly serialization of a record sequence: filter away
wildcard rows, serialize each record, join with newlines.  `Except`
propagates the (unreachable) wildcard error of
`serializeInstructionToAsm`. -/
def asmLinesOf (l : List Instruction) : Except String String :=
  ((l.filter (fun i => !jsIncludes i.opcodeBits '2')).mapM
      serializeInstructionToAsm).map (String.intercalate "\n")

/-- The fixed appendix of symbolic constants added to the assembly
output. -/
def asmAppendix : String :=
  "
R0 0
R1 1
R2 2
R3 3
R4 4
R5 5
COUNTER 6
INPUT 7
OUTPUT 7
_ 0
"

/-- `asmContent`: the assembly output text. -/
def asmContent : Except String String :=
  (asmLinesOf instr).map (fun s => s ++ asmAppendix)

/-- Is an `Except` result a success? -/
def exceptIsOk : Except String String → Bool
  | Except.ok _ => true
  | Except.error _ => false

instance : DecidableEq (Except String String) := fun a b =>
  match a, b with
  | Except.ok x, Except.ok y =>
    if h : x = y then isTrue (by rw [h])
    else isFalse (by intro he; cases he; exact h rfl)
  | Except.error x, Except.error y =>
    if h : x = y then isTrue (by rw [h])
    else isFalse (by intro he; cases he; exact h rfl)
  | Except.ok _, Except.error _ => isFalse (by intro he; cases he)
  | Except.error _, Except.ok _ => isFalse (by intro he; cases he)

/-- A well-formed rule-table text: every line (split on newlines) is
trimmed, non-blank, and round-trips through the row parser and row
serializer. -/
def WellFormedRuleText (t : String) : Prop :=
  ∀ l ∈ jsSplitNewline t, jsTrim l = l ∧ l.isEmpty = false ∧
    serializeInstructionToRules (deserializeInstructionFromRules l) = l

instance decidableWellFormedRuleText (t : String) :
    Decidable (WellFormedRuleText t) := by
  unfold WellFormedRuleText
  infer_instance

/-- Every immediate-mode tag is a nonempty string, so the
`filter ((a) => a.length > 0)` step of `addImmediateModeClones` keeps
every mode of the policy list. -/
theorem immediateMode_tag_nonempty (a : ImmediateMode) :
    decide (0 < a.tag.length) = true := by
  cases a <;> decide

/-- The filter inside `addImmediateModeClones` is the identity. -/
theorem filter_tag_nonempty (l : List ImmediateMode) :
    l.filter (fun a => decide (0 < a.tag.length)) = l :=
  List.filter_eq_self.mpr (fun a _ => immediateMode_tag_nonempty a)

/-- C1: in the final expanded record sequence `instr`, the
`opcodeBits` of the non-wildcard records are pairwise distinct:
immediate-mode expansion of the embedded base table produces no opcode
collisions among non-wildcard rows. -/
theorem c1_no_opcode_collisions :
    ((instr.filter (fun i => !jsIncludes i.opcodeBits '2')).map
        (fun i => i.opcodeBits)).Nodup := by
  decide

/-- C2: `modeToBits` maps arg1-immediate to "10", arg2-immediate to
"01" and both-immediate to "11", and for every non-wildcard base
record with 8 opcode characters and every applicable mode,
`immediateModeClone` keeps bits 2–7 and the two name indices
unchanged, sets bits 0–1 to the mode's pattern, and appends the mode
tag to the mnemonic. -/
theorem c2_immediate_mode_clone_shape :
    (modeToBits ImmediateMode.ARG1_IMMEDIATE = ('1', '0') ∧
     modeToBits ImmediateMode.ARG2_IMMEDIATE = ('0', '1') ∧
     modeToBits ImmediateMode.BOTH_ARGS_IMMEDIATE = ('1', '1')) ∧
    ∀ (i : Instruction) (mode : ImmediateMode),
      i.opcodeBits.length = 8 →
      jsIncludes i.opcodeBits '2' = false →
      mode ∈ getInstructionImmediateModes i →
      (immediateModeClone i mode).opcodeBits.toList.drop 2 =
          i.opcodeBits.toList.drop 2 ∧
      (immediateModeClone i mode).opcodeBits.toList.take 2 =
          [(modeToBits mode).1, (modeToBits mode).2] ∧
      (immediateModeClone i mode).name = i.name ++ mode.tag ∧
      (immediateModeClone i mode).nameStartIndex = i.nameStartIndex ∧
      (immediateModeClone i mode).nameEndIndex = i.nameEndIndex := by
  refine ⟨⟨rfl, rfl, rfl⟩, ?_⟩
  intro i mode h8 _ _
  have hl : i.opcodeBits.toList.length = 8 := h8
  rcases hx : i.opcodeBits.toList with _ | ⟨a, _ | ⟨b, t⟩⟩
  · rw [hx] at hl; simp at hl
  · rw [hx] at hl; simp at hl
  · refine ⟨?_, ?_, rfl, rfl, rfl⟩ <;>
      simp only [immediateModeClone, hx, List.set_cons_zero,
        List.set_cons_succ, List.asString] <;> rfl

/-- C2 witness: the clone of the base `add` row for the
arg1-immediate mode, checked concretely. -/
theorem c2_immediate_mode_clone_shape_witness :
    (immediateModeClone (Instruction.mk "00000000" (some 5) (some 7) "add")
        ImmediateMode.ARG1_IMMEDIATE).opcodeBits.toList.drop 2 =
      (Instruction.mk "00000000" (some 5) (some 7)
          "add").opcodeBits.toList.drop 2 ∧
    (immediateModeClone (Instruction.mk "00000000" (some 5) (some 7) "add")
        ImmediateMode.ARG1_IMMEDIATE).opcodeBits.toList.take 2 =
      [(modeToBits ImmediateMode.ARG1_IMMEDIATE).1,
       (modeToBits ImmediateMode.ARG1_IMMEDIATE).2] ∧
    (immediateModeClone (Instruction.mk "00000000" (some 5) (some 7) "add")
        ImmediateMode.ARG1_IMMEDIATE).name =
      (Instruction.mk "00000000" (some 5) (some 7) "add").name ++
        ImmediateMode.ARG1_IMMEDIATE.tag ∧
    (immediateModeClone (Instruction.mk "00000000" (some 5) (some 7) "add")
        ImmediateMode.ARG1_IMMEDIATE).nameStartIndex =
      (Instruction.mk "00000000" (some 5) (some 7) "add").nameStartIndex ∧
    (immediateModeClone (Instruction.mk "00000000" (some 5) (some 7) "add")
        ImmediateMode.ARG1_IMMEDIATE).nameEndIndex =
      (Instruction.mk "00000000" (some 5) (some 7) "add").nameEndIndex :=
  c2_immediate_mode_clone_shape.2
    (Instruction.mk "00000000" (some 5) (some 7) "add")
    ImmediateMode.ARG1_IMMEDIATE (by decide) (by decide) (by decide)

/-- C3: the per-mnemonic policy of `getInstructionImmediateModes`:
`read`/`pop` get no variants, `not`/`write`/`push` get only the
arg1-immediate variant, every other mnemonic gets all three, and the
expander follows the policy; concretely, the `not` base row expands to
exactly the two records `not` and `noti1`. -/
theorem c3_immediate_mode_policy :
    (∀ i : Instruction, i.name = "read" ∨ i.name = "pop" →
      getInstructionImmediateModes i = []) ∧
    (∀ i : Instruction, i.name = "not" ∨ i.name = "write" ∨ i.name = "push" →
      getInstructionImmediateModes i = [ImmediateMode.ARG1_IMMEDIATE]) ∧
    (∀ i : Instruction, i.name ≠ "read" → i.name ≠ "pop" → i.name ≠ "not" →
      i.name ≠ "write" → i.name ≠ "push" →
      getInstructionImmediateModes i = modes) ∧
    (∀ i : Instruction, jsIncludes i.opcodeBits '2' = false →
      addImmediateModeClones i =
        i :: (getInstructionImmediateModes i).map (immediateModeClone i)) ∧
    addImmediateModeClones (Instruction.mk "00000100" (some 5) (some 7) "not") =
      [Instruction.mk "00000100" (some 5) (some 7) "not",
       Instruction.mk "10000100" (some 5) (some 7) "noti1"] ∧
    (addImmediateModeClones
        (Instruction.mk "00000100" (some 5) (some 7) "not")).map
      (fun r => r.name) = ["not", "noti1"] := by
  refine ⟨?_, ?_, ?_, ?_, by decide, by decide⟩
  · intro i h
    unfold getInstructionImmediateModes
    rcases h with h | h <;> rw [h] <;> decide
  · intro i h
    unfold getInstructionImmediateModes
    rcases h with h | h | h <;> rw [h] <;> decide
  · intro i h1 h2 h3 h4 h5
    unfold getInstructionImmediateModes
    split <;> simp_all
  · intro i hw
    unfold addImmediateModeClones
    simp only [hw, Bool.false_eq_true, if_false, filter_tag_nonempty]

/-- C3 witness: the policy applied to the concrete `read` row. -/
theorem c3_immediate_mode_policy_witness :
    getInstructionImmediateModes
      (Instruction.mk "00010000" (some 4) (some 7) "read") = [] :=
  c3_immediate_mode_policy.1
    (Instruction.mk "00010000" (some 4) (some 7) "read") (Or.inl rfl)

/-- C4: a wildcard row (opcodeBits containing '2') is never
case-normalized and never expanded; concretely, the four wildcard rows
of the embedded table survive the pipeline with their authored names,
their serialized rows are lines of the rule-table output, and the
record sequence serialized to assembly contains no wildcard row. -/
theorem c4_wildcard_passthrough :
    (∀ i : Instruction, jsIncludes i.opcodeBits '2' = true →
      caseNormalize i = i ∧ addImmediateModeClones i = [i]) ∧
    instr.filter (fun i => jsIncludes i.opcodeBits '2') =
      [Instruction.mk "12222222" (some 0) (some 0) "I_ARG1",
       Instruction.mk "20012222" (some 3) (some 3) "MEM",
       Instruction.mk "21222222" (some 1) (some 1) "I_ARG2",
       Instruction.mk "22122222" (some 2) (some 2) "COND"] ∧
    ((instr.filter (fun i => jsIncludes i.opcodeBits '2')).all
      (fun w => decide (serializeInstructionToRules w ∈
        jsSplitNewline instructionRulesContent)) = true) ∧
    ((instr.filter (fun i => !jsIncludes i.opcodeBits '2')).all
      (fun i => !jsIncludes i.opcodeBits '2' &&
        !decide (i.name = "COND") && !decide (i.name = "I_ARG2") &&
        !decide (i.name = "MEM") && !decide (i.name = "I_ARG1")) = true) := by
  refine ⟨?_, by decide, by decide, by decide⟩
  intro i h
  constructor
  · simp [caseNormalize, h]
  · simp [addImmediateModeClones, h]

/-- C4 witness: the wildcard `COND` row passes through the
normalization and expansion steps verbatim. -/
theorem c4_wildcard_passthrough_witness :
    caseNormalize (Instruction.mk "22122222" (some 2) (some 2) "COND") =
      Instruction.mk "22122222" (some 2) (some 2) "COND" ∧
    addImmediateModeClones
        (Instruction.mk "22122222" (some 2) (some 2) "COND") =
      [Instruction.mk "22122222" (some 2) (some 2) "COND"] :=
  c4_wildcard_passthrough.1
    (Instruction.mk "22122222" (some 2) (some 2) "COND") (by decide)

/-- C7: `serializeInstructionToAsm` fails exactly on records whose
`opcodeBits` contains the wildcard character '2', and on the actual
record sequence handed to the assembly serializer (wildcard rows
filtered out) the error branch is never taken. -/
theorem c7_wildcard_error_guard :
    (∀ i : Instruction,
      exceptIsOk (serializeInstructionToAsm i) = false ↔
        jsIncludes i.opcodeBits '2' = true) ∧
    ((instr.filter (fun i => !jsIncludes i.opcodeBits '2')).all
      (fun i => exceptIsOk (serializeInstructionToAsm i)) = true) := by
  refine ⟨?_, by decide⟩
  intro i
  cases h : jsIncludes i.opcodeBits '2' <;>
    simp [serializeInstructionToAsm, exceptIsOk, h]

/-- C8: on a record without wildcard bits the assembly serializer
emits `"<name> <n>"` with `n` the base-2 parse of the bits rendered in
decimal; a binary digit string of length 8 parses to its unsigned
binary value; and the `add` base row with bits 00000000 expands to the
four assembly lines `add 0`, `addi1 128`, `addi2 64`, `addi12 192`. -/
theorem c8_asm_encoding :
    (∀ i : Instruction, jsIncludes i.opcodeBits '2' = false →
      serializeInstructionToAsm i =
        Except.ok (i.name ++ " " ++
          renderJSNumber (jsParseIntBase2 i.opcodeBits))) ∧
    (∀ s : String, (∀ c ∈ s.toList, c = '0' ∨ c = '1') → s.toList ≠ [] →
      jsParseIntBase2 s = some (binaryValue s.toList)) ∧
    (addImmediateModeClones
        (Instruction.mk "00000000" (some 0) (some 7) "add")).map
      serializeInstructionToAsm =
      [Except.ok "add 0", Except.ok "addi1 128",
       Except.ok "addi2 64", Except.ok "addi12 192"] := by
  refine ⟨?_, ?_, by decide⟩
  · intro i h
    simp [serializeInstructionToAsm, h]
  · intro s hc hne
    have ht : s.toList.takeWhile (fun c => c == '0' || c == '1') = s.toList :=
      List.takeWhile_eq_self_iff.mpr (fun c hm => by
        rcases hc c hm with h | h <;> simp [h])
    have hie : s.toList.isEmpty = false := by
      cases hx : s.toList with
      | nil => exact absurd hx hne
      | cons a t => simp
    have hstep : jsParseIntBase2 s =
        if (s.toList.takeWhile (fun c => c == '0' || c == '1')).isEmpty then
          none
        else
          some (binaryValue
            (s.toList.takeWhile (fun c => c == '0' || c == '1'))) := rfl
    rw [hstep, ht, hie]
    simp

/-- C8 witness: the general encoding law applied to the concrete base
`add` record. -/
theorem c8_asm_encoding_witness :
    serializeInstructionToAsm (Instruction.mk "00000000" (some 0) (some 7) "add") =
      Except.ok ((Instruction.mk "00000000" (some 0) (some 7) "add").name ++
        " " ++ renderJSNumber (jsParseIntBase2
          (Instruction.mk "00000000" (some 0) (some 7) "add").opcodeBits)) :=
  c8_asm_encoding.1 (Instruction.mk "00000000" (some 0) (some 7) "add")
    (by decide)

/-- C10: the already-expanded exclusion filter is purely syntactic on
the mnemonic: in a well-formed input table containing the non-wildcard
base row `0000000057fooi1` (an authored mnemonic that merely ends in
the tag "i1"), that row is parsed, then dropped before expansion, and
the string "fooi1" appears in neither the rule-table output nor the
assembly output of the pipeline on that table. -/
theorem c10_suffix_filter_drops_authored_row :
    (Instruction.mk "00000000" (some 5) (some 7) "fooi1" ∈
      readFileInstructions "0000000057fooi1\n0000000157bar") ∧
    jsIncludes "00000000" '2' = false ∧
    isGeneratedImmediateName "fooi1" = true ∧
    pipelineInstr "0000000057fooi1\n0000000157bar" =
      [Instruction.mk "00000001" (some 5) (some 7) "bar",
       Instruction.mk "10000001" (some 5) (some 7) "bari1",
       Instruction.mk "01000001" (some 5) (some 7) "bari2",
       Instruction.mk "11000001" (some 5) (some 7) "bari12"] ∧
    listContainsSub
      (stringifyFileInstructionsForFile
        (pipelineInstr "0000000057fooi1\n0000000157bar")).toList
      "fooi1".toList = false ∧
    asmLinesOf (pipelineInstr "0000000057fooi1\n0000000157bar") =
      Except.ok "bar 1\nbari1 129\nbari2 65\nbari12 193" ∧
    listContainsSub "bar 1\nbari1 129\nbari2 65\nbari12 193".toList
      "fooi1".toList = false := by
  decide

/-- C5: re-running the parse, filter, normalize and expand pipeline on
the serialized output of the already-expanded table yields the same
set of records (and the same number of records): the suffix filter
excludes every generated variant from re-expansion. -/
theorem c5_reprocessing_idempotent :
    (∀ i : Instruction,
      i ∈ pipelineInstr instructionRulesContent ↔ i ∈ instr) ∧
    (pipelineInstr instructionRulesContent).length = instr.length := by
  have h1 : ∀ i ∈ pipelineInstr instructionRulesContent, i ∈ instr := by
    decide
  have h2 : ∀ i ∈ instr, i ∈ pipelineInstr instructionRulesContent := by
    decide
  exact ⟨fun i => ⟨fun h => h1 i h, fun h => h2 i h⟩, by decide⟩

/-- C6 counterexample: the generated rule-table output is well formed,
yet parsing it with `readFileInstructions` and re-serializing with
`stringifyFileInstructionsForFile` does not reproduce the same text
(the parser reverses the line order and the serializer does not
reverse it back). -/
theorem c6_roundtrip_counterexample :
    WellFormedRuleText instructionRulesContent ∧
    stringifyFileInstructionsForFile
        (readFileInstructions instructionRulesContent) ≠
      instructionRulesContent := by
  constructor
  · decide
  · decide

/-- C6 (amended): on every well-formed rule-table text, serializing
the parse result reproduces the text with its line order reversed
(so the claimed identity fails; two applications are the identity). -/
theorem c6_serialize_parse_reverses_lines :
    ∀ t : String, WellFormedRuleText t →
      stringifyFileInstructionsForFile (readFileInstructions t) =
        String.intercalate "\n" ((jsSplitNewline t).reverse) := by
  intro t h
  have htrim : (jsSplitNewline t).map jsTrim = jsSplitNewline t := by
    calc (jsSplitNewline t).map jsTrim
        = (jsSplitNewline t).map id :=
          List.map_congr_left (fun a ha => (h a ha).1)
      _ = jsSplitNewline t := List.map_id _
  have hfilt : (jsSplitNewline t).filter (fun l => !l.isEmpty) =
      jsSplitNewline t :=
    List.filter_eq_self.mpr (fun a ha => by simp [(h a ha).2.1])
  unfold readFileInstructions stringifyFileInstructionsForFile
  rw [htrim, hfilt, List.map_reverse, List.map_map]
  congr 1
  congr 1
  calc (jsSplitNewline t).map
        (serializeInstructionToRules ∘ deserializeInstructionFromRules)
      = (jsSplitNewline t).map id :=
        List.map_congr_left (fun a ha => (h a ha).2.2)
    _ = jsSplitNewline t := List.map_id _

/-- C6 witness: the amended law on a concrete well-formed two-row
text, where the reversal is visible. -/
theorem c6_serialize_parse_reverses_lines_witness :
    stringifyFileInstructionsForFile
        (readFileInstructions "0000000057add\n0000000157sub") =
      String.intercalate "\n"
        ((jsSplitNewline "0000000057add\n0000000157sub").reverse) :=
  c6_serialize_parse_reverses_lines "0000000057add\n0000000157sub"
    (by decide)

/-- Splitting a character list that contains no newline yields the
single segment. -/
theorem splitLines_eq_of_no_newline :
    ∀ l : List Char, '\n' ∉ l → splitLines l = [l] := by
  intro l h
  induction l with
  | nil => rfl
  | cons c t ih =>
    have hc : (c == '\n') = false := by
      refine beq_eq_false_iff_ne.mpr ?_
      intro e
      exact h (e ▸ List.mem_cons_self c t)
    have ht : '\n' ∉ t := fun m => h (List.mem_cons_of_mem _ m)
    simp [splitLines, ih ht, hc]

/-- C9 counterexample: the non-blank 5-character line "short" does not
make the parser fail; it yields a record with truncated opcode bits,
`NaN` indices and an empty mnemonic. -/
theorem c9_short_line_counterexample :
    ("short".length < 10 ∧ jsTrim "short" = "short" ∧
      "short".isEmpty = false) ∧
    readFileInstructions "short" = [Instruction.mk "short" none none ""] ∧
    (Instruction.mk "short" none none "").opcodeBits.length ≠ 8 := by
  decide

/-- C9 (amended): the parser has no short-line guard: every non-blank
newline-free line shorter than 10 characters parses to exactly one
record whose mnemonic is empty and whose name-end index is `NaN`,
instead of failing. -/
theorem c9_short_line_parses_corrupt :
    ∀ line : String, '\n' ∉ line.toList → jsTrim line = line →
      line.isEmpty = false → line.length < 10 →
      readFileInstructions line = [deserializeInstructionFromRules line] ∧
      (deserializeInstructionFromRules line).name = "" ∧
      (deserializeInstructionFromRules line).nameEndIndex = none := by
  intro line hn htr hie hlen
  have hsplit : jsSplitNewline line = [line] := by
    unfold jsSplitNewline
    rw [splitLines_eq_of_no_newline _ hn]
    rfl
  have hlen9 : line.toList.length ≤ 9 := by
    have hx : line.toList.length = line.length := rfl
    omega
  refine ⟨?_, ?_, ?_⟩
  · unfold readFileInstructions
    rw [hsplit]
    simp [htr, hie]
  · show jsSliceFrom line 10 = ""
    unfold jsSliceFrom
    rw [List.drop_eq_nil_of_le (by omega : line.toList.length ≤ 10)]
    rfl
  · show jsParseIntDec (jsSlice line 9 10) = none
    unfold jsSlice
    rw [List.drop_eq_nil_of_le (by omega : line.toList.length ≤ 9)]
    rfl

/-- C9 witness: the amended statement instantiated at the concrete
line "short". -/
theorem c9_short_line_parses_corrupt_witness :
    readFileInstructions "short" =
      [deserializeInstructionFromRules "short"] ∧
    (deserializeInstructionFromRules "short").name = "" ∧
    (deserializeInstructionFromRules "short").nameEndIndex = none :=
  c9_short_line_parses_corrupt "short" (by decide) (by decide) (by decide)
    (by decide)
